import Mathlib

/-!
Shallow embedding of the cloud-forecast repository's adaptive windowing and
aggregation layer, with theorems checking the specification's claims.

Sources embedded:
  - src/src/training/tft.py : determine_window_lengths, _pad_short_series,
    _fill_missing_dates, create_datasets (window refinement and retention).
  - src/src/api/app.py : _pad_costs, _build_request_from_series,
    _get_quantile_index, _summarize_provider (currency conversion, clamping,
    group skipping), forecast endpoint response assembly.

Costs and predicted values are modelled as rationals, dates and time indices
as integers, lengths and counts as naturals.
-/

namespace CloudForecast

/-- Compile-time maximum encoder window length (tft.py line 22). -/
def MAX_ENCODER_LENGTH : ℕ := 30

/-- Compile-time maximum prediction horizon length (tft.py line 23). -/
def MAX_PREDICTION_LENGTH : ℕ := 7

/-- Window Planner, from `determine_window_lengths` (tft.py lines 69-77).
Input is `total_periods = df.time_idx.max() + 1`; output is
`(encoder_length, prediction_length)`.  Natural subtraction matches the
Python integers here because every subtraction is guarded by a `max` with a
positive constant. -/
def determine_window_lengths (total_periods : ℕ) : ℕ × ℕ :=
  let prediction_length := min MAX_PREDICTION_LENGTH (max 1 (total_periods / 3))
  let encoder_length :=
    min MAX_ENCODER_LENGTH (max 2 (total_periods - prediction_length - 1))
  let encoder_length := min encoder_length (max 1 (total_periods - 1))
  if encoder_length ≤ prediction_length then
    (prediction_length + 1, prediction_length)
  else
    (encoder_length, prediction_length)

/-- Effect of `_pad_short_series` (tft.py lines 80-99) on the point count of
one (provider, service) group: a group with fewer than `min_points` rows gets
`min_points - len` synthetic leading rows, so its count becomes `min_points`;
longer groups are untouched. -/
def pad_short_series_count (min_points n : ℕ) : ℕ :=
  if n < min_points then min_points else n

/-- Minimum of a list of per-series point counts (`groupby(...).size().min()`);
`0` for an empty list, which the callers exclude. -/
def shortestCount : List ℕ → ℕ
  | [] => 0
  | c :: cs => cs.foldl min c

/-- Shortest retained series length after the conditional padding step of
`create_datasets` (tft.py lines 160-168): if the shortest series has fewer
than 2 points, every short series is padded to 2 points and the shortest
length is recomputed. -/
def padded_shortest (counts : List ℕ) : ℕ :=
  let s := shortestCount counts
  if s < 2 then shortestCount (counts.map (pad_short_series_count 2)) else s

/-- Per-series refinement of the window lengths in `create_datasets`
(tft.py lines 170-175), given the shortest retained series length. -/
def refine_window (encoder_length prediction_length shortest_series : ℕ) :
    ℕ × ℕ :=
  let p1 :=
    if shortest_series ≤ prediction_length then max 1 (shortest_series - 1)
    else prediction_length
  let max_encoder_allowed := max 1 (shortest_series - p1)
  let e1 := min encoder_length max_encoder_allowed
  let p2 :=
    if shortest_series < e1 + p1 then max 1 (shortest_series - e1) else p1
  (e1, p2)

/-- Maximum of a list of per-series point counts (`counts.num_points.max()`),
`0` for an empty list. -/
def maxCount (counts : List ℕ) : ℕ := counts.foldl max 0

/-- Effective minimum series length used by the retention filter of
`create_datasets` (tft.py lines 125-143).  `min_series_length` is
`encoder_length + prediction_length`; `min_pts` is the configured
`MIN_SERIES_POINTS`; `max_pts` is the maximum observed series point count. -/
def effective_min_code (min_pts max_pts min_series_length : ℕ) : ℕ :=
  let e1 := min min_series_length max_pts
  let e2 := if min_pts ≤ max_pts then max min_pts e1 else max_pts
  max 1 e2

/-- Modelled from the spec claim's words, for comparison with
`effective_min_code`: `effective_min = max(configured_minimum,
encoder_length + prediction_length)`, capped at the maximum observed series
length only when that maximum is below the configured minimum. -/
def effective_min_claim (min_pts max_pts min_series_length : ℕ) : ℕ :=
  if max_pts < min_pts then min (max min_pts min_series_length) max_pts
  else max min_pts min_series_length

/-- Retention and error behaviour of `create_datasets` (tft.py lines
127-151) on the list of per-series point counts: raise when there are no
points at all, otherwise keep exactly the series whose count reaches the
effective minimum, and raise `DataInsufficientError` when none does. -/
def create_datasets_filter (min_pts min_series_length : ℕ)
    (counts : List ℕ) : Except String (List ℕ) :=
  let max_pts := maxCount counts
  if max_pts = 0 then Except.error "no points"
  else
    let eff := effective_min_code min_pts max_pts min_series_length
    let kept := counts.filter (fun c => eff ≤ c)
    if kept = [] then Except.error "insufficient" else Except.ok kept

/-- Padding helper `_pad_costs` (app.py lines 176-183). -/
def _pad_costs (costs : List ℚ) (desired_length : ℕ) : List ℚ :=
  if costs = [] then List.replicate desired_length 0
  else if desired_length ≤ costs.length then costs
  else List.replicate (desired_length - costs.length) costs.headI ++ costs

/-- Cost-window construction of `_build_request_from_series` (app.py lines
186-199): take the last `max_encoder` values (all values when `max_encoder`
is 0), pad to `max_encoder` when short, and fall back to a single zero when
the window is still empty. -/
def _build_request_costs (costs : List ℚ) (max_encoder : ℕ) : List ℚ :=
  let recent :=
    if max_encoder ≠ 0 then costs.drop (costs.length - max_encoder) else costs
  let recent2 :=
    if max_encoder ≠ 0 ∧ recent.length < max_encoder then
      _pad_costs recent max_encoder
    else recent
  if recent2 = [] then [0] else recent2

/-- Quantile Selector `_get_quantile_index` (app.py lines 150-157).
`quantiles` is `none` when the model's loss has no quantile attribute; an
empty list is falsy in Python, hence the explicit nonemptiness tests. -/
def _get_quantile_index (quantiles : Option (List ℚ)) (quantile : ℚ) : ℕ :=
  match quantiles with
  | some qs =>
      if qs ≠ [] ∧ quantile ∈ qs then qs.indexOf quantile
      else if qs ≠ [] then qs.length / 2
      else 0
  | none => 0

/-- Input of one (service, region, currency) group in `_summarize_provider`
(app.py line 224): the grouping identity and its date-ordered cost history.
Empty strings model SQL NULL / falsy values for the identity fields. -/
structure GroupInput where
  service : String
  region : String
  currency : String
  costs : List ℚ
deriving DecidableEq

/-- One entry of the per-service detail list built by `_summarize_provider`
(app.py lines 273-280). -/
structure ServiceDetail where
  service : String
  region : String
  currency : String
  weekly : ℚ
  monthly : ℚ
  yearly : ℚ
deriving DecidableEq

/-- Loop state of `_summarize_provider` (app.py lines 218-222): running
provider totals, the provider-level currency tag (`none` before the first
successful group), and the accumulated service details. -/
structure SummaryState where
  weekly : ℚ
  monthly : ℚ
  yearly : ℚ
  currency : Option String
  services : List ServiceDetail
deriving DecidableEq

/-- Provider summary dictionary returned by `_summarize_provider` (app.py
lines 285-291). -/
structure ProviderSummary where
  weekly : ℚ
  monthly : ℚ
  yearly : ℚ
  services : List ServiceDetail
  currency : String
deriving DecidableEq

/-- ASCII upper-casing, modelling Python's `str.upper()` as applied to
currency codes at app.py line 245. -/
def upper (s : String) : String := ⟨s.data.map Char.toUpper⟩

/-- Currency normalization step of `_summarize_provider` (app.py lines
245-258): `target` is `TARGET_SUMMARY_CURRENCY`, `rate` is
`USD_TO_INR_RATE` (a zero rate is falsy in Python and disables conversion),
`code` is the group's upper-cased currency code.  Returns the possibly
relabelled currency code together with the converted weekly, monthly and
yearly figures. -/
def convert_currency (target : String) (rate : ℚ) (code : String)
    (weekly monthly yearly : ℚ) : String × ℚ × ℚ × ℚ :=
  if code ≠ target then
    if code = "USD" ∧ target = "INR" ∧ rate ≠ 0 then
      (target, weekly * rate, monthly * rate, yearly * rate)
    else if code = "INR" ∧ target = "USD" ∧ rate ≠ 0 then
      (target, weekly * (1 / rate), monthly * (1 / rate),
        yearly * (1 / rate))
    else (code, weekly, monthly, yearly)
  else (code, weekly, monthly, yearly)

/-- Body of the per-group loop of `_summarize_provider` (app.py lines
225-280).  `forecastOf` abstracts the external request building, model
predict and median-quantile extraction of lines 231-234; `none` models the
exception path of lines 235-237, which skips the group. -/
def summarize_step (target : String) (rate : ℚ)
    (forecastOf : GroupInput → Option (List ℚ))
    (st : SummaryState) (g : GroupInput) : SummaryState :=
  if g.costs = [] then st
  else
    match forecastOf g with
    | none => st
    | some median =>
        let horizon_days : ℕ := max 1 median.length
        let weekly := median.sum
        let daily_avg := weekly / (horizon_days : ℚ)
        let monthly := daily_avg * 30
        let yearly := monthly * 12
        let code0 := upper (if g.currency = "" then "USD" else g.currency)
        let conv := convert_currency target rate code0 weekly monthly yearly
        let weekly2 := max 0 conv.2.1
        let monthly2 := max 0 conv.2.2.1
        let yearly2 := max 0 conv.2.2.2
        { weekly := st.weekly + weekly2
          monthly := st.monthly + monthly2
          yearly := st.yearly + yearly2
          currency :=
            match st.currency with
            | none => some conv.1
            | some c => if c ≠ conv.1 then some "MULTI" else some c
          services := st.services ++
            [{ service := if g.service = "" then "unknown" else g.service
               region := if g.region = "" then "unknown" else g.region
               currency := conv.1
               weekly := weekly2
               monthly := monthly2
               yearly := yearly2 }] }

/-- Provider Summary Aggregator `_summarize_provider` (app.py lines
202-291), restricted to its per-group loop and final assembly: the groups
are processed in order, and a provider with no successfully forecast group
yields no summary (`none`, modelling the empty dict of line 283). -/
def summarize_provider (target : String) (rate : ℚ)
    (forecastOf : GroupInput → Option (List ℚ))
    (groups : List GroupInput) : Option ProviderSummary :=
  let st := groups.foldl (summarize_step target rate forecastOf)
    ⟨0, 0, 0, none, []⟩
  if st.services = [] then none
  else
    some
      { weekly := st.weekly
        monthly := st.monthly
        yearly := st.yearly
        services := st.services
        currency :=
          match st.currency with
          | some c => c
          | none => if target ≠ "" then target else "USD" }

/-- Quantile labels hard-coded by the `forecast` endpoint (app.py line 327). -/
def forecastQuantileLabels : List String := ["0.1", "0.5", "0.9"]

/-- Response assembly of the `forecast` endpoint (app.py lines 327-332):
`preds i` is the predicted sequence at output quantile index `i`; each label
is paired with the prediction at its position in the label list. -/
def forecast_response (preds : ℕ → List ℚ) : List (String × List ℚ) :=
  forecastQuantileLabels.enum.map (fun iq => (iq.2, preds iq.1))

/-- One source row of a (provider, service) group handed to
`_fill_missing_dates` (tft.py lines 102-119): the calendar date as an
absolute day number, the cost, and the categorical attributes, with `none`
modelling a pandas NaN entry. -/
structure Row where
  date : ℤ
  cost : ℚ
  region : Option String
  currency : Option String
deriving DecidableEq

/-- First-known-wins combination of two optional values, as used by the
pandas fill chain. -/
def orO (a b : Option String) : Option String :=
  match a with
  | some v => some v
  | none => b

/-- Forward fill (`Series.ffill()`, tft.py line 112): every missing entry
takes the last known value above it; `last` carries the running last known
value. -/
def ffillFrom : Option String → List (Option String) → List (Option String)
  | _, [] => []
  | last, none :: rest => last :: ffillFrom last rest
  | _, some v :: rest => some v :: ffillFrom (some v) rest

/-- Forward fill of a whole column. -/
def ffill (l : List (Option String)) : List (Option String) :=
  ffillFrom none l

/-- Nearest known value at or after the start of a column segment. -/
def firstKnown (l : List (Option String)) : Option String :=
  (l.filterMap id).head?

/-- Nearest known value at or before the end of a column segment. -/
def lastKnown (l : List (Option String)) : Option String :=
  (l.filterMap id).getLast?

/-- Backward fill (`Series.bfill()`, tft.py line 112): every missing entry
takes the next known value below it. -/
def bfill : List (Option String) → List (Option String)
  | [] => []
  | v :: rest => orO v (firstKnown rest) :: bfill rest

/-- Categorical fill chain of `_fill_missing_dates` (tft.py line 112):
`ffill().bfill().fillna("unknown")`. -/
def fillColumn (l : List (Option String)) : List String :=
  (bfill (ffill l)).map (fun v => v.getD "unknown")

/-- Minimum observed date of a group (`group.date.min()`); 0 for an empty
group, which the callers exclude. -/
def minDate (g : List Row) : ℤ :=
  match g with
  | [] => 0
  | r :: rs => rs.foldl (fun a x => min a x.date) r.date

/-- Maximum observed date of a group (`group.date.max()`); 0 for an empty
group, which the callers exclude. -/
def maxDate (g : List Row) : ℤ :=
  match g with
  | [] => 0
  | r :: rs => rs.foldl (fun a x => max a x.date) r.date

/-- Daily calendar from `lo` to `hi` inclusive
(`pd.date_range(min, max, freq="D")`, tft.py line 106). -/
def dateRange (lo hi : ℤ) : List ℤ :=
  (List.range (hi - lo + 1).toNat).map (fun i : ℕ => lo + (i : ℤ))

/-- Reindex step of `_fill_missing_dates` (tft.py lines 106-107, 113): one
output row per calendar date of the group's span; a date present in the
group keeps its row (dates are unique per (provider, service) group at the
storage layer), a missing date gets cost 0 and missing categoricals. -/
def expandGroup (g : List Row) (lo hi : ℤ) : List Row :=
  (dateRange lo hi).map (fun d =>
    match g.find? (fun r => r.date == d) with
    | some r =>
        { date := d, cost := r.cost, region := r.region,
          currency := r.currency }
    | none => { date := d, cost := 0, region := none, currency := none })

/-- Region column of the reindexed frame of one group. -/
def regionCol (g : List Row) : List (Option String) :=
  (expandGroup g (minDate g) (maxDate g)).map (fun r => r.region)

/-- Currency column of the reindexed frame of one group. -/
def currencyCol (g : List Row) : List (Option String) :=
  (expandGroup g (minDate g) (maxDate g)).map (fun r => r.currency)

/-- Calendar Normalizer for one (provider, service) group (tft.py lines
104-114): reindex over the full daily calendar, insert cost 0 for missing
dates, and run the categorical fill chain on the region and currency
columns. -/
def fillGroup (g : List Row) : List Row :=
  let expanded := expandGroup g (minDate g) (maxDate g)
  let regions := fillColumn (regionCol g)
  let currencies := fillColumn (currencyCol g)
  (expanded.zip (regions.zip currencies)).map (fun p =>
    { date := p.1.date, cost := p.1.cost,
      region := some p.2.1, currency := some p.2.2 })

/-- Minimum date over the concatenation of the filled groups
(`result.date.min()`, tft.py line 118). -/
def globalMinDate (filled : List (List Row)) : ℤ := minDate filled.join

/-- The whole of `_fill_missing_dates` (tft.py lines 102-119): fill every
(provider, service) group, then recompute `time_idx` for every row as the
integer day offset from the minimum date across all filled series; each row
is returned together with its time index.  (The source concatenates and
sorts the rows by date before assigning `time_idx`; the index assigned to a
row depends only on its date, so the per-series view is kept here.) -/
def fill_missing_dates (groups : List (List Row)) : List (List (ℤ × Row)) :=
  let filled := groups.map fillGroup
  let D := globalMinDate filled
  filled.map (fun g => g.map (fun r => (r.date - D, r)))

/-- Concrete batch with one group observed on days 0 and 3 only, the
calendar-fill example of the spec. -/
def exampleGroups : List (List Row) :=
  [[{ date := 0, cost := 5, region := some "us", currency := some "USD" },
    { date := 3, cost := 7, region := some "us", currency := some "USD" }]]

end CloudForecast

namespace CloudForecast

theorem le_foldl_min (m c : ℕ) (cs : List ℕ) (hc : m ≤ c)
    (hcs : ∀ x ∈ cs, m ≤ x) : m ≤ cs.foldl min c := by
  induction cs generalizing c with
  | nil => simpa using hc
  | cons d ds ih =>
    simp only [List.foldl_cons]
    exact ih (min c d) (le_min hc (hcs d (by simp)))
      (fun x hx => hcs x (by simp [hx]))

theorem shortestCount_le_of_mem {counts : List ℕ} {m : ℕ}
    (hne : counts ≠ []) (h : ∀ c ∈ counts, m ≤ c) :
    m ≤ shortestCount counts := by
  match counts, hne with
  | c :: cs, _ =>
    simp only [shortestCount]
    exact le_foldl_min m c cs (h c (by simp)) (fun x hx => h x (by simp [hx]))

theorem padded_shortest_ge_two {counts : List ℕ}
    (hne : counts ≠ []) (hc : ∀ c ∈ counts, 1 ≤ c) :
    2 ≤ padded_shortest counts := by
  simp only [padded_shortest]
  split
  · apply shortestCount_le_of_mem
    · simpa using hne
    · intro c hcm
      simp only [List.mem_map] at hcm
      obtain ⟨a, _, rfl⟩ := hcm
      simp only [pad_short_series_count]
      split <;> omega
  · omega

theorem refine_window_sum_le (e p S : ℕ) (hS : 2 ≤ S) :
    (refine_window e p S).1 + (refine_window e p S).2 ≤ S := by
  simp only [refine_window]
  split_ifs <;> omega

/-- C2: for every total span `T ≥ 1`, `determine_window_lengths` returns
`prediction_length = min(MAX_PREDICTION_LENGTH, max(1, T / 3))`, with
`encoder_length ≥ 1`, `prediction_length ≥ 1`, and
`encoder_length > prediction_length`. -/
theorem C2_window_monotonicity (T : ℕ) (hT : 1 ≤ T) :
    (determine_window_lengths T).2
        = min MAX_PREDICTION_LENGTH (max 1 (T / 3)) ∧
      1 ≤ (determine_window_lengths T).1 ∧
      1 ≤ (determine_window_lengths T).2 ∧
      (determine_window_lengths T).2 < (determine_window_lengths T).1 := by
  simp only [determine_window_lengths, MAX_ENCODER_LENGTH,
    MAX_PREDICTION_LENGTH]
  split_ifs <;> omega

theorem C2_window_monotonicity_witness :
    1 ≤ 10 ∧
      ((determine_window_lengths 10).2
          = min MAX_PREDICTION_LENGTH (max 1 (10 / 3)) ∧
        1 ≤ (determine_window_lengths 10).1 ∧
        1 ≤ (determine_window_lengths 10).2 ∧
        (determine_window_lengths 10).2 < (determine_window_lengths 10).1) :=
  ⟨by decide, C2_window_monotonicity 10 (by decide)⟩

/-- C1: for every batch whose window lengths come from the Window Planner
and in which at least one series is retained (each retained series having at
least one point), the per-series refinement of `create_datasets` — applied
after the conditional padding of series shorter than 2 points — yields
window lengths with `encoder_length + prediction_length ≤ S_min`, the
shortest retained series length after fill and padding. -/
theorem C1_plan_feasibility (T : ℕ) (counts : List ℕ) (hT : 1 ≤ T)
    (hne : counts ≠ []) (hc : ∀ c ∈ counts, 1 ≤ c) :
    (refine_window (determine_window_lengths T).1
          (determine_window_lengths T).2 (padded_shortest counts)).1 +
        (refine_window (determine_window_lengths T).1
          (determine_window_lengths T).2 (padded_shortest counts)).2
      ≤ padded_shortest counts :=
  refine_window_sum_le _ _ _ (padded_shortest_ge_two hne hc)

theorem C1_plan_feasibility_witness :
    1 ≤ 10 ∧ ([3] : List ℕ) ≠ [] ∧ (∀ c ∈ ([3] : List ℕ), 1 ≤ c) ∧
      (refine_window (determine_window_lengths 10).1
            (determine_window_lengths 10).2 (padded_shortest [3])).1 +
          (refine_window (determine_window_lengths 10).1
            (determine_window_lengths 10).2 (padded_shortest [3])).2
        ≤ padded_shortest [3] :=
  ⟨by decide, by decide, by decide,
    C1_plan_feasibility 10 [3] (by decide) (by decide) (by decide)⟩

/-- C3 counterexample: with the default configured minimum of 1 and
`encoder_length + prediction_length = 14`, a batch whose only series has 5
points is retained by `create_datasets` (the code always caps the required
length at the maximum observed count), while the claim's formula
`max(configured_minimum, encoder_length + prediction_length)` — uncapped
because the maximum observed count 5 is not below the configured minimum 1 —
demands 14 points and would reject it. -/
theorem C3_retention_counterexample :
    create_datasets_filter 1 14 [5] = Except.ok [5] ∧
      ¬ effective_min_claim 1 5 14 ≤ 5 :=
  ⟨rfl, by decide⟩

/-- C3 amended: a series is retained exactly when its point count reaches
`effective_min_code`, in which the `encoder_length + prediction_length`
requirement is always capped at the maximum observed series count (and the
whole threshold degrades to that maximum when it is below the configured
minimum); `DataInsufficientError` is raised exactly when no series meets
this threshold. -/
theorem C3_retention_amended (min_pts min_series_length : ℕ)
    (counts : List ℕ) (h : maxCount counts ≠ 0) :
    (create_datasets_filter min_pts min_series_length counts
        = Except.error "insufficient"
      ↔ ∀ c ∈ counts,
          c < effective_min_code min_pts (maxCount counts) min_series_length) ∧
    ((∃ c ∈ counts,
        effective_min_code min_pts (maxCount counts) min_series_length ≤ c) →
      create_datasets_filter min_pts min_series_length counts
        = Except.ok (counts.filter (fun c =>
            effective_min_code min_pts (maxCount counts) min_series_length
              ≤ c))) := by
  simp only [create_datasets_filter]
  rw [if_neg h]
  constructor
  · split_ifs with hk
    · simp only [List.filter_eq_nil_iff, decide_eq_true_eq] at hk
      simp only [true_iff]
      intro c hc
      have := hk c hc
      omega
    · simp only [List.filter_eq_nil_iff, decide_eq_true_eq, not_forall] at hk
      obtain ⟨c, hc, hle⟩ := hk
      constructor
      · intro habs
        exact absurd habs (by simp)
      · intro hall
        have := hall c hc
        omega
  · intro ⟨c, hc, hle⟩
    rw [if_neg]
    intro habs
    rw [List.filter_eq_nil_iff] at habs
    exact absurd (by simpa using hle) (habs c hc)

theorem C3_retention_amended_witness :
    maxCount [5] ≠ 0 ∧
      ((create_datasets_filter 1 14 [5] = Except.error "insufficient"
          ↔ ∀ c ∈ ([5] : List ℕ),
              c < effective_min_code 1 (maxCount [5]) 14) ∧
        ((∃ c ∈ ([5] : List ℕ),
            effective_min_code 1 (maxCount [5]) 14 ≤ c) →
          create_datasets_filter 1 14 [5]
            = Except.ok (List.filter (fun c =>
                effective_min_code 1 (maxCount [5]) 14 ≤ c) [5]))) :=
  ⟨by decide, C3_retention_amended 1 14 [5] (by decide)⟩

/-- C4 counterexample: with target encoder length 2 and an empty raw cost
sequence, `_build_request_from_series` produces two zeros (the empty-input
branch of `_pad_costs` zero-fills to the full target length), not the single
zero value the claim states for `N == 0`. -/
theorem C4_request_builder_counterexample :
    _build_request_costs [] 2 = [0, 0] ∧ _build_request_costs [] 2 ≠ [0] := by
  decide

/-- C4 amended: for target encoder length `L ≥ 1` the Forecast Request
Builder always outputs exactly `L` values: the last `L` values when
`N ≥ L`; the first value repeated `L - N` times followed by the `N` real
values when `0 < N < L`; and `L` zero values when `N = 0` (the
single-zero fallback applies only when the target length is 0). -/
theorem C4_request_builder_amended (costs : List ℚ) (L : ℕ) (hL : 1 ≤ L) :
    (_build_request_costs costs L).length = L ∧
    (L ≤ costs.length →
      _build_request_costs costs L = costs.drop (costs.length - L)) ∧
    (costs ≠ [] → costs.length < L →
      _build_request_costs costs L
        = List.replicate (L - costs.length) costs.headI ++ costs) ∧
    (costs = [] → _build_request_costs costs L = List.replicate L 0) := by
  have h0 : L ≠ 0 := by omega
  rcases eq_or_ne costs [] with hnil | hnil
  · subst hnil
    have hL' : 0 < L := hL
    have hrep : List.replicate L (0 : ℚ) ≠ [] := by
      simp only [ne_eq, List.replicate_eq_nil_iff]
      omega
    have hmain : _build_request_costs [] L = List.replicate L 0 := by
      simp [_build_request_costs, _pad_costs, h0, hL', hrep]
    refine ⟨?_, ?_, ?_, fun _ => hmain⟩
    · rw [hmain]
      simp
    · intro h
      simp at h
      omega
    · intro h
      exact absurd rfl h
  · rcases le_or_lt L costs.length with hcase | hcase
    · have hlen : (costs.drop (costs.length - L)).length = L := by
        simp [List.length_drop]
        omega
      have hdne : costs.drop (costs.length - L) ≠ [] := by
        intro habs
        rw [habs] at hlen
        simp at hlen
        omega
      refine ⟨?_, fun _ => ?_, ?_, ?_⟩
      · simp [_build_request_costs, h0, hlen, hdne]
      · simp [_build_request_costs, h0, hlen, hdne]
      · intro _ habs
        omega
      · intro habs
        exact absurd habs hnil
    · have hdrop : costs.drop (costs.length - L) = costs := by
        have : costs.length - L = 0 := by omega
        simp [this]
      have hpad : _pad_costs costs L
          = List.replicate (L - costs.length) costs.headI ++ costs := by
        simp only [_pad_costs]
        rw [if_neg hnil, if_neg (by omega)]
      have hpne : List.replicate (L - costs.length) costs.headI ++ costs
          ≠ [] := by
        simp [hnil]
      refine ⟨?_, ?_, fun _ _ => ?_, ?_⟩
      · simp [_build_request_costs, h0, hdrop, hcase, hpad, hpne, hnil]
        omega
      · intro habs
        omega
      · simp [_build_request_costs, h0, hdrop, hcase, hpad, hpne]
      · intro habs
        exact absurd habs hnil

theorem C4_request_builder_amended_witness :
    1 ≤ 5 ∧
      ((_build_request_costs [5, 7] 5).length = 5 ∧
        (5 ≤ ([5, 7] : List ℚ).length →
          _build_request_costs [5, 7] 5
            = List.drop (([5, 7] : List ℚ).length - 5) [5, 7]) ∧
        (([5, 7] : List ℚ) ≠ [] → ([5, 7] : List ℚ).length < 5 →
          _build_request_costs [5, 7] 5
            = List.replicate (5 - ([5, 7] : List ℚ).length)
                (([5, 7] : List ℚ).headI) ++ [5, 7]) ∧
        (([5, 7] : List ℚ) = [] →
          _build_request_costs [5, 7] 5 = List.replicate 5 0)) :=
  ⟨by decide, C4_request_builder_amended [5, 7] 5 (by decide)⟩

/-- C9: the Quantile Selector returns the index of the desired level when it
occurs in the configured list, the upper-median index `len / 2` when the
configured list is nonempty but lacks the level, and 0 when no quantile list
is configured. -/
theorem C9_quantile_selector (quantiles : Option (List ℚ)) (q : ℚ) :
    (∀ qs, quantiles = some qs → q ∈ qs →
        _get_quantile_index quantiles q = qs.indexOf q) ∧
      (∀ qs, quantiles = some qs → qs ≠ [] → q ∉ qs →
        _get_quantile_index quantiles q = qs.length / 2) ∧
      (quantiles = none → _get_quantile_index quantiles q = 0) := by
  refine ⟨?_, ?_, ?_⟩
  · intro qs hq hmem
    subst hq
    simp only [_get_quantile_index]
    rw [if_pos ⟨List.ne_nil_of_mem hmem, hmem⟩]
  · intro qs hq hne hnm
    subst hq
    simp only [_get_quantile_index]
    rw [if_neg (by simp [hnm]), if_pos hne]
  · intro hq
    subst hq
    rfl

theorem C9_quantile_selector_witness :
    _get_quantile_index (some [1/10, 1/2, 9/10]) (1/2)
      = ([1/10, 1/2, 9/10] : List ℚ).indexOf (1/2) :=
  (C9_quantile_selector (some [1/10, 1/2, 9/10]) (1/2)).1 _ rfl
    (by norm_num [List.mem_cons])

/-- C5: for a group whose upper-cased currency code differs from the
reporting currency and a configured (nonzero) fixed rate, conversion happens
exactly for the USD-to-INR and INR-to-USD pairings — with the fixed rate,
respectively its reciprocal, and relabelling to the reporting currency —
while every other mismatched pair is left unconverted with its original
currency code. -/
theorem C5_currency_conversion (target : String) (rate : ℚ) (code : String)
    (weekly monthly yearly : ℚ) (hne : code ≠ target) (hr : rate ≠ 0) :
    (code = "USD" ∧ target = "INR" →
      convert_currency target rate code weekly monthly yearly
        = (target, weekly * rate, monthly * rate, yearly * rate)) ∧
    (code = "INR" ∧ target = "USD" →
      convert_currency target rate code weekly monthly yearly
        = (target, weekly * (1 / rate), monthly * (1 / rate),
            yearly * (1 / rate))) ∧
    (¬(code = "USD" ∧ target = "INR") → ¬(code = "INR" ∧ target = "USD") →
      convert_currency target rate code weekly monthly yearly
        = (code, weekly, monthly, yearly)) := by
  refine ⟨?_, ?_, ?_⟩
  · rintro ⟨rfl, rfl⟩
    unfold convert_currency
    rw [if_pos hne, if_pos ⟨rfl, rfl, hr⟩]
  · rintro ⟨rfl, rfl⟩
    unfold convert_currency
    rw [if_pos hne, if_neg (fun hcon => absurd hcon.2.1 (by decide)),
      if_pos ⟨rfl, rfl, hr⟩]
  · intro hp1 hp2
    unfold convert_currency
    rw [if_pos hne, if_neg (fun hcon => hp1 ⟨hcon.1, hcon.2.1⟩),
      if_neg (fun hcon => hp2 ⟨hcon.1, hcon.2.1⟩)]

theorem C5_currency_conversion_witness :
    ("USD" : String) ≠ "INR" ∧ (83 : ℚ) ≠ 0 ∧
      ((("USD" : String) = "USD" ∧ ("INR" : String) = "INR" →
        convert_currency "INR" 83 "USD" 1 2 3
          = ("INR", 1 * 83, 2 * 83, 3 * 83)) ∧
      (("USD" : String) = "INR" ∧ ("INR" : String) = "USD" →
        convert_currency "INR" 83 "USD" 1 2 3
          = ("INR", 1 * (1 / 83), 2 * (1 / 83), 3 * (1 / 83))) ∧
      (¬(("USD" : String) = "USD" ∧ ("INR" : String) = "INR") →
        ¬(("USD" : String) = "INR" ∧ ("INR" : String) = "USD") →
        convert_currency "INR" 83 "USD" 1 2 3 = ("USD", 1, 2, 3))) :=
  ⟨by decide, by decide,
    C5_currency_conversion "INR" 83 "USD" 1 2 3 (by decide) (by decide)⟩

theorem summarize_step_preserves_nonneg (target : String) (rate : ℚ)
    (f : GroupInput → Option (List ℚ)) (st : SummaryState) (g : GroupInput)
    (h : 0 ≤ st.weekly ∧ 0 ≤ st.monthly ∧ 0 ≤ st.yearly ∧
      ∀ d ∈ st.services, 0 ≤ d.weekly ∧ 0 ≤ d.monthly ∧ 0 ≤ d.yearly) :
    0 ≤ (summarize_step target rate f st g).weekly ∧
      0 ≤ (summarize_step target rate f st g).monthly ∧
      0 ≤ (summarize_step target rate f st g).yearly ∧
      ∀ d ∈ (summarize_step target rate f st g).services,
        0 ≤ d.weekly ∧ 0 ≤ d.monthly ∧ 0 ≤ d.yearly := by
  obtain ⟨h1, h2, h3, h4⟩ := h
  simp only [summarize_step]
  split
  · exact ⟨h1, h2, h3, h4⟩
  · split
    · exact ⟨h1, h2, h3, h4⟩
    · refine ⟨add_nonneg h1 (le_max_left 0 _),
        add_nonneg h2 (le_max_left 0 _),
        add_nonneg h3 (le_max_left 0 _), ?_⟩
      intro d hd
      rw [List.mem_append] at hd
      rcases hd with hd | hd
      · exact h4 d hd
      · simp only [List.mem_singleton] at hd
        subst hd
        exact ⟨le_max_left 0 _, le_max_left 0 _, le_max_left 0 _⟩

theorem foldl_summarize_step_nonneg (target : String) (rate : ℚ)
    (f : GroupInput → Option (List ℚ)) (groups : List GroupInput)
    (st : SummaryState)
    (h : 0 ≤ st.weekly ∧ 0 ≤ st.monthly ∧ 0 ≤ st.yearly ∧
      ∀ d ∈ st.services, 0 ≤ d.weekly ∧ 0 ≤ d.monthly ∧ 0 ≤ d.yearly) :
    0 ≤ (groups.foldl (summarize_step target rate f) st).weekly ∧
      0 ≤ (groups.foldl (summarize_step target rate f) st).monthly ∧
      0 ≤ (groups.foldl (summarize_step target rate f) st).yearly ∧
      ∀ d ∈ (groups.foldl (summarize_step target rate f) st).services,
        0 ≤ d.weekly ∧ 0 ≤ d.monthly ∧ 0 ≤ d.yearly := by
  induction groups generalizing st with
  | nil => exact h
  | cons g gs ih =>
      exact ih _ (summarize_step_preserves_nonneg target rate f st g h)

/-- C6: every service entry retained by the Provider Summary Aggregator has
nonnegative weekly, monthly and yearly figures (clamped after conversion),
and the provider-level totals — sums of the per-group figures — are
nonnegative as well, even when the model's median predictions are
negative. -/
theorem C6_nonnegativity (target : String) (rate : ℚ)
    (f : GroupInput → Option (List ℚ)) (groups : List GroupInput)
    (s : ProviderSummary)
    (h : summarize_provider target rate f groups = some s) :
    0 ≤ s.weekly ∧ 0 ≤ s.monthly ∧ 0 ≤ s.yearly ∧
      ∀ d ∈ s.services, 0 ≤ d.weekly ∧ 0 ≤ d.monthly ∧ 0 ≤ d.yearly := by
  have hst := foldl_summarize_step_nonneg target rate f groups
    ⟨0, 0, 0, none, []⟩ ⟨le_refl 0, le_refl 0, le_refl 0, by simp⟩
  simp only [summarize_provider] at h
  by_cases hs : (List.foldl (summarize_step target rate f)
      ⟨0, 0, 0, none, []⟩ groups).services = []
  · rw [if_pos hs] at h
    exact absurd h (by simp)
  · rw [if_neg hs, Option.some.injEq] at h
    subst h
    exact hst

theorem C6_nonnegativity_witness :
    summarize_provider "INR" 83 (fun _ => some [(-5 : ℚ)])
        [⟨"s", "r", "USD", [1]⟩]
      = some ⟨0, 0, 0, [⟨"s", "r", "INR", 0, 0, 0⟩], "INR"⟩ ∧
    (0 ≤ (⟨0, 0, 0, [⟨"s", "r", "INR", 0, 0, 0⟩], "INR"⟩ :
        ProviderSummary).weekly ∧
      0 ≤ (⟨0, 0, 0, [⟨"s", "r", "INR", 0, 0, 0⟩], "INR"⟩ :
        ProviderSummary).monthly ∧
      0 ≤ (⟨0, 0, 0, [⟨"s", "r", "INR", 0, 0, 0⟩], "INR"⟩ :
        ProviderSummary).yearly ∧
      ∀ d ∈ (⟨0, 0, 0, [⟨"s", "r", "INR", 0, 0, 0⟩], "INR"⟩ :
          ProviderSummary).services,
        0 ≤ d.weekly ∧ 0 ≤ d.monthly ∧ 0 ≤ d.yearly) :=
  have h : summarize_provider "INR" 83 (fun _ => some [(-5 : ℚ)])
      [⟨"s", "r", "USD", [1]⟩]
      = some ⟨0, 0, 0, [⟨"s", "r", "INR", 0, 0, 0⟩], "INR"⟩ := by
    have hu : upper "USD" = "USD" := by decide
    simp [summarize_provider, summarize_step, convert_currency, hu]
  ⟨h, C6_nonnegativity "INR" 83 (fun _ => some [(-5 : ℚ)])
    [⟨"s", "r", "USD", [1]⟩] _ h⟩

theorem summarize_step_of_forecast_none (target : String) (rate : ℚ)
    (f : GroupInput → Option (List ℚ)) (st : SummaryState) (g : GroupInput)
    (hf : f g = none) : summarize_step target rate f st g = st := by
  simp only [summarize_step, hf]
  split_ifs <;> rfl

theorem foldl_summarize_step_filter (target : String) (rate : ℚ)
    (f : GroupInput → Option (List ℚ)) (groups : List GroupInput)
    (st : SummaryState) :
    groups.foldl (summarize_step target rate f) st
      = (groups.filter (fun g => (f g).isSome)).foldl
          (summarize_step target rate f) st := by
  induction groups generalizing st with
  | nil => rfl
  | cons g gs ih =>
      cases hf : f g with
      | none =>
          rw [List.foldl_cons, List.filter_cons,
            summarize_step_of_forecast_none target rate f st g hf,
            if_neg (by simp [hf])]
          exact ih st
      | some median =>
          rw [List.foldl_cons, List.filter_cons, if_pos (by simp [hf]),
            List.foldl_cons]
          exact ih _

/-- C7: a group whose forecast call raises is skipped entirely — it adds no
service entry and contributes nothing to the provider totals, the remaining
groups are still processed, and no exception propagates: the whole provider
summary equals the one computed over the successfully forecast groups
alone. -/
theorem C7_group_failure_isolation (target : String) (rate : ℚ)
    (f : GroupInput → Option (List ℚ)) (groups : List GroupInput) :
    summarize_provider target rate f groups
      = summarize_provider target rate f
          (groups.filter (fun g => (f g).isSome)) := by
  simp only [summarize_provider]
  rw [foldl_summarize_step_filter]

theorem orO_none_right (a : Option String) : orO a none = a := by
  cases a <;> rfl

theorem orO_assoc (a b c : Option String) :
    orO (orO a b) c = orO a (orO b c) := by
  cases a <;> rfl

theorem ffillFrom_length (acc : Option String) (l : List (Option String)) :
    (ffillFrom acc l).length = l.length := by
  induction l generalizing acc with
  | nil => rfl
  | cons a as ih => cases a <;> simp [ffillFrom, ih]

theorem bfill_length (l : List (Option String)) :
    (bfill l).length = l.length := by
  induction l with
  | nil => rfl
  | cons a as ih => simp [bfill, ih]

theorem fillColumn_length (l : List (Option String)) :
    (fillColumn l).length = l.length := by
  simp [fillColumn, bfill_length, ffill, ffillFrom_length]

theorem firstKnown_cons (a : Option String) (t : List (Option String)) :
    firstKnown (a :: t) = orO a (firstKnown t) := by
  cases a <;> simp [firstKnown, List.filterMap_cons, orO]

theorem getLast?_cons_of_some {α : Type} (a y : α) (s : List α)
    (h : s.getLast? = some y) : (a :: s).getLast? = some y := by
  cases s with
  | nil => simp at h
  | cons b bs => rw [List.getLast?_cons_cons]; exact h

theorem lastKnown_cons (a : Option String) (t : List (Option String)) :
    lastKnown (a :: t) = orO (lastKnown t) a := by
  cases a with
  | none => simp [lastKnown, List.filterMap_cons, orO_none_right]
  | some v =>
    simp only [lastKnown]
    rw [show List.filterMap id (some v :: t) = v :: List.filterMap id t
      from by simp]
    cases h : (t.filterMap id).getLast? with
    | none =>
        rw [List.getLast?_eq_none_iff] at h
        rw [h]
        rfl
    | some y => rw [getLast?_cons_of_some v y _ h]; rfl

theorem lastKnown_concat (t : List (Option String)) (a : Option String) :
    lastKnown (t ++ [a]) = orO a (lastKnown t) := by
  cases a with
  | none => simp [lastKnown, List.filterMap_append, orO]
  | some v => simp [lastKnown, List.filterMap_append, orO]

theorem ffillFrom_getElem (acc : Option String) (l : List (Option String))
    (i : ℕ) (h : i < (ffillFrom acc l).length) :
    (ffillFrom acc l)[i] = orO (lastKnown (l.take (i + 1))) acc := by
  induction l generalizing acc i with
  | nil => simp [ffillFrom] at h
  | cons a as ih =>
    cases a with
    | none =>
      cases i with
      | zero => simp [ffillFrom, lastKnown, List.filterMap_cons, orO]
      | succ j =>
        have h' : j < (ffillFrom acc as).length := by
          simp only [ffillFrom, List.length_cons] at h
          omega
        simp only [ffillFrom, List.getElem_cons_succ, List.take_succ_cons]
        rw [ih acc j h', lastKnown_cons, orO_none_right]
    | some v =>
      cases i with
      | zero => simp [ffillFrom, lastKnown, List.filterMap_cons, orO]
      | succ j =>
        have h' : j < (ffillFrom (some v) as).length := by
          simp only [ffillFrom, List.length_cons] at h
          omega
        simp only [ffillFrom, List.getElem_cons_succ, List.take_succ_cons]
        rw [ih (some v) j h', lastKnown_cons, orO_assoc]
        rfl

theorem bfill_getElem (l : List (Option String)) (i : ℕ)
    (h : i < (bfill l).length) :
    (bfill l)[i] = firstKnown (l.drop i) := by
  induction l generalizing i with
  | nil => simp [bfill] at h
  | cons a as ih =>
    cases i with
    | zero =>
      simp only [bfill, List.getElem_cons_zero, List.drop_zero]
      rw [firstKnown_cons]
    | succ j =>
      have h' : j < (bfill as).length := by
        simp only [bfill, List.length_cons] at h
        omega
      simp only [bfill, List.getElem_cons_succ, List.drop_succ_cons]
      rw [ih j h']

theorem ffillFrom_drop (acc : Option String) (l : List (Option String))
    (i : ℕ) :
    (ffillFrom acc l).drop i
      = ffillFrom (orO (lastKnown (l.take i)) acc) (l.drop i) := by
  induction l generalizing acc i with
  | nil => simp [ffillFrom]
  | cons a as ih =>
    cases i with
    | zero => simp [lastKnown, List.filterMap_nil, orO]
    | succ j =>
      cases a with
      | none =>
        rw [show ffillFrom acc (none :: as) = acc :: ffillFrom acc as
            from rfl]
        rw [List.drop_succ_cons, ih acc j, List.drop_succ_cons,
          show (none :: as).take (j + 1) = none :: as.take j from rfl,
          lastKnown_cons, orO_none_right]
      | some v =>
        rw [show ffillFrom acc (some v :: as)
            = some v :: ffillFrom (some v) as from rfl]
        rw [List.drop_succ_cons, ih (some v) j, List.drop_succ_cons,
          show (some v :: as).take (j + 1) = some v :: as.take j from rfl,
          lastKnown_cons, orO_assoc]
        rfl

theorem firstKnown_ffillFrom_none (l : List (Option String)) :
    firstKnown (ffillFrom none l) = firstKnown l := by
  induction l with
  | nil => rfl
  | cons a as ih =>
    cases a with
    | none =>
      rw [show ffillFrom none (none :: as) = none :: ffillFrom none as
          from rfl]
      rw [firstKnown_cons, firstKnown_cons]
      simp [orO, ih]
    | some v =>
      rw [show ffillFrom none (some v :: as)
          = some v :: ffillFrom (some v) as from rfl]
      rw [firstKnown_cons, firstKnown_cons]
      rfl

theorem fillColumn_getElem (l : List (Option String)) (i : ℕ)
    (h : i < (fillColumn l).length) :
    (fillColumn l)[i]
      = (orO (lastKnown (l.take (i + 1)))
          (firstKnown (l.drop (i + 1)))).getD "unknown" := by
  have hl : i < l.length := by rw [fillColumn_length] at h; exact h
  have hb : i < (bfill (ffill l)).length := by
    rw [bfill_length, ffill, ffillFrom_length]
    exact hl
  simp only [fillColumn, List.getElem_map]
  rw [bfill_getElem _ i hb, ffill, ffillFrom_drop, orO_none_right,
    List.drop_eq_getElem_cons hl, ← List.take_concat_get' l i hl,
    lastKnown_concat]
  cases hv : l[i] with
  | some v =>
    rw [show ffillFrom (lastKnown (l.take i)) (some v :: l.drop (i + 1))
        = some v :: ffillFrom (some v) (l.drop (i + 1)) from rfl]
    rw [firstKnown_cons]
    rfl
  | none =>
    rw [show ffillFrom (lastKnown (l.take i)) (none :: l.drop (i + 1))
        = lastKnown (l.take i) :: ffillFrom (lastKnown (l.take i))
            (l.drop (i + 1)) from rfl]
    rw [firstKnown_cons]
    cases hA : lastKnown (l.take i) with
    | some a => rfl
    | none =>
      rw [show orO none (firstKnown (ffillFrom none (l.drop (i + 1))))
          = firstKnown (ffillFrom none (l.drop (i + 1))) from rfl]
      rw [firstKnown_ffillFrom_none]
      rfl

theorem dateRange_length (lo hi : ℤ) :
    (dateRange lo hi).length = (hi - lo + 1).toNat := by
  simp only [dateRange, List.length_map, List.length_range]

theorem dateRange_getElem (lo hi : ℤ) (i : ℕ)
    (h : i < (dateRange lo hi).length) :
    (dateRange lo hi)[i] = lo + i := by
  simp only [dateRange, List.getElem_map, List.getElem_range]

theorem expandGroup_length (g : List Row) (lo hi : ℤ) :
    (expandGroup g lo hi).length = (dateRange lo hi).length := by
  simp [expandGroup]

theorem expandGroup_date (g : List Row) (lo hi : ℤ) (i : ℕ)
    (h : i < (expandGroup g lo hi).length) :
    (expandGroup g lo hi)[i].date = lo + i := by
  have hd : i < (dateRange lo hi).length := by
    rw [expandGroup_length] at h
    exact h
  simp only [expandGroup, List.getElem_map]
  rw [dateRange_getElem lo hi i hd]
  cases g.find? (fun r => r.date == lo + i) <;> rfl

theorem expandGroup_getElem_none (g : List Row) (lo hi : ℤ) (i : ℕ)
    (h : i < (expandGroup g lo hi).length)
    (hf : g.find? (fun r => r.date == lo + i) = none) :
    (expandGroup g lo hi)[i]
      = { date := lo + i, cost := 0, region := none, currency := none } := by
  have hd : i < (dateRange lo hi).length := by
    rw [expandGroup_length] at h
    exact h
  simp only [expandGroup, List.getElem_map]
  rw [dateRange_getElem lo hi i hd, hf]

theorem regionCol_length (g : List Row) :
    (regionCol g).length = (dateRange (minDate g) (maxDate g)).length := by
  simp [regionCol, expandGroup_length]

theorem currencyCol_length (g : List Row) :
    (currencyCol g).length = (dateRange (minDate g) (maxDate g)).length := by
  simp [currencyCol, expandGroup_length]

theorem fillGroup_length (g : List Row) :
    (fillGroup g).length = (dateRange (minDate g) (maxDate g)).length := by
  simp [fillGroup, fillColumn_length, regionCol_length, currencyCol_length,
    expandGroup_length]

theorem fillGroup_getElem (g : List Row) (i : ℕ)
    (h : i < (fillGroup g).length)
    (he : i < (expandGroup g (minDate g) (maxDate g)).length)
    (hr : i < (fillColumn (regionCol g)).length)
    (hc : i < (fillColumn (currencyCol g)).length) :
    (fillGroup g)[i] =
      { date := (expandGroup g (minDate g) (maxDate g))[i].date
        cost := (expandGroup g (minDate g) (maxDate g))[i].cost
        region := some ((fillColumn (regionCol g))[i])
        currency := some ((fillColumn (currencyCol g))[i]) } := by
  simp only [fillGroup, List.getElem_map, List.getElem_zip]

theorem fillGroup_map_date (g : List Row) :
    (fillGroup g).map (fun r => r.date)
      = dateRange (minDate g) (maxDate g) := by
  apply List.ext_getElem
  · simp [fillGroup_length]
  · intro i h1 h2
    have hg : i < (fillGroup g).length := by
      simp only [List.length_map] at h1
      exact h1
    have he : i < (expandGroup g (minDate g) (maxDate g)).length := by
      rw [expandGroup_length]
      rw [fillGroup_length] at hg
      exact hg
    have hr : i < (fillColumn (regionCol g)).length := by
      rw [fillColumn_length, regionCol_length]
      rw [fillGroup_length] at hg
      exact hg
    have hc : i < (fillColumn (currencyCol g)).length := by
      rw [fillColumn_length, currencyCol_length]
      rw [fillGroup_length] at hg
      exact hg
    rw [List.getElem_map, fillGroup_getElem g i hg he hr hc]
    show (expandGroup g (minDate g) (maxDate g))[i].date = _
    rw [expandGroup_date g (minDate g) (maxDate g) i he,
      dateRange_getElem (minDate g) (maxDate g) i h2]

/-- C8: for every (provider, service) group the Calendar Normalizer outputs
exactly one row per calendar date from the group's minimum to its maximum
observed date inclusive; every inserted date carries cost 0 and gets its
region and currency from the nearest known value above (forward fill), else
the nearest known value below (backward fill), else the literal "unknown";
and `time_idx` is recomputed as the day offset from the minimum date across
all series normalized together, so each series' time indices are contiguous
integers with no gaps. -/
theorem C8_calendar_normalizer (groups : List (List Row))
    (hne : ∀ g ∈ groups, g ≠ [])
    (hnd : ∀ g ∈ groups, (g.map (fun r => r.date)).Nodup) :
    (∀ g ∈ groups,
      ((fillGroup g).map (fun r => r.date)
          = dateRange (minDate g) (maxDate g)) ∧
      (∀ i, (hi : i < (fillGroup g).length) →
        (∀ r ∈ g, r.date ≠ minDate g + i) →
        ((fillGroup g).get ⟨i, hi⟩).cost = 0 ∧
        ((fillGroup g).get ⟨i, hi⟩).region
          = some ((orO (lastKnown ((regionCol g).take (i + 1)))
              (firstKnown ((regionCol g).drop (i + 1)))).getD "unknown") ∧
        ((fillGroup g).get ⟨i, hi⟩).currency
          = some ((orO (lastKnown ((currencyCol g).take (i + 1)))
              (firstKnown ((currencyCol g).drop (i + 1)))).getD
                "unknown"))) ∧
    (∀ fg ∈ fill_missing_dates groups,
      (∀ i, (hi : i < fg.length) →
        (fg.get ⟨i, hi⟩).1
          = (fg.get ⟨i, hi⟩).2.date
              - globalMinDate (groups.map fillGroup)) ∧
      (∀ i, (hi : i + 1 < fg.length) →
        (fg.get ⟨i + 1, hi⟩).1 = (fg.get ⟨i, by omega⟩).1 + 1)) := by
  constructor
  · intro g hg
    refine ⟨fillGroup_map_date g, ?_⟩
    intro i hi hins
    have he : i < (expandGroup g (minDate g) (maxDate g)).length := by
      rw [expandGroup_length]
      rw [fillGroup_length] at hi
      exact hi
    have hr : i < (fillColumn (regionCol g)).length := by
      rw [fillColumn_length, regionCol_length]
      rw [fillGroup_length] at hi
      exact hi
    have hc : i < (fillColumn (currencyCol g)).length := by
      rw [fillColumn_length, currencyCol_length]
      rw [fillGroup_length] at hi
      exact hi
    have hrc : i < (regionCol g).length := by
      rw [fillColumn_length] at hr
      exact hr
    have hcc : i < (currencyCol g).length := by
      rw [fillColumn_length] at hc
      exact hc
    have hfind : g.find? (fun r => r.date == minDate g + i) = none := by
      rw [List.find?_eq_none]
      intro r hrmem
      simp only [beq_iff_eq]
      exact hins r hrmem
    have hget : (fillGroup g).get ⟨i, hi⟩ = (fillGroup g)[i] := rfl
    refine ⟨?_, ?_, ?_⟩
    · rw [hget, fillGroup_getElem g i hi he hr hc,
        expandGroup_getElem_none g (minDate g) (maxDate g) i he hfind]
    · rw [hget, fillGroup_getElem g i hi he hr hc,
        fillColumn_getElem (regionCol g) i hr]
    · rw [hget, fillGroup_getElem g i hi he hr hc,
        fillColumn_getElem (currencyCol g) i hc]
  · intro fg hfg
    simp only [fill_missing_dates, List.mem_map] at hfg
    obtain ⟨flg, hflg, rfl⟩ := hfg
    obtain ⟨g, hgmem, rfl⟩ := hflg
    have hdate : ∀ j, (hj : j < (fillGroup g).length) →
        (fillGroup g)[j].date = minDate g + j := by
      intro j hj
      have h2 : j < ((fillGroup g).map (fun r => r.date)).length := by
        simpa using hj
      have h3 := List.getElem_of_eq (fillGroup_map_date g) h2
      rw [List.getElem_map] at h3
      have h4 : j < (dateRange (minDate g) (maxDate g)).length := by
        rw [← fillGroup_length]
        exact hj
      rw [h3, dateRange_getElem _ _ j h4]
    constructor
    · intro i hi
      simp [List.get_eq_getElem, List.getElem_map]
    · intro i hi
      have hi1 : i + 1 < (fillGroup g).length := by simpa using hi
      have hi0 : i < (fillGroup g).length := by omega
      simp only [List.get_eq_getElem, List.getElem_map]
      rw [hdate (i + 1) hi1, hdate i hi0]
      omega

theorem C8_calendar_normalizer_witness :
    (∀ g ∈ exampleGroups, g ≠ []) ∧
    (∀ g ∈ exampleGroups, (g.map (fun r => r.date)).Nodup) ∧
    ((∀ g ∈ exampleGroups,
      ((fillGroup g).map (fun r => r.date)
          = dateRange (minDate g) (maxDate g)) ∧
      (∀ i, (hi : i < (fillGroup g).length) →
        (∀ r ∈ g, r.date ≠ minDate g + i) →
        ((fillGroup g).get ⟨i, hi⟩).cost = 0 ∧
        ((fillGroup g).get ⟨i, hi⟩).region
          = some ((orO (lastKnown ((regionCol g).take (i + 1)))
              (firstKnown ((regionCol g).drop (i + 1)))).getD "unknown") ∧
        ((fillGroup g).get ⟨i, hi⟩).currency
          = some ((orO (lastKnown ((currencyCol g).take (i + 1)))
              (firstKnown ((currencyCol g).drop (i + 1)))).getD
                "unknown"))) ∧
    (∀ fg ∈ fill_missing_dates exampleGroups,
      (∀ i, (hi : i < fg.length) →
        (fg.get ⟨i, hi⟩).1
          = (fg.get ⟨i, hi⟩).2.date
              - globalMinDate (exampleGroups.map fillGroup)) ∧
      (∀ i, (hi : i + 1 < fg.length) →
        (fg.get ⟨i + 1, hi⟩).1 = (fg.get ⟨i, by omega⟩).1 + 1))) :=
  ⟨by decide, by decide,
    C8_calendar_normalizer exampleGroups (by decide) (by decide)⟩

/-- C10: every successful forecast response maps exactly the labels "0.1",
"0.5" and "0.9" to the prediction sequences at output quantile indices 0, 1
and 2 respectively, whatever the model's actual quantile levels are. -/
theorem C10_forecast_response_labels (preds : ℕ → List ℚ) :
    forecast_response preds
        = [("0.1", preds 0), ("0.5", preds 1), ("0.9", preds 2)] ∧
      (forecast_response preds).map Prod.fst = ["0.1", "0.5", "0.9"] :=
  ⟨rfl, rfl⟩

end CloudForecast
